import Mathlib

/-!
Shallow embedding of `tslite` (`src/lib.rs`), a minimal embedded time-series
store: a single flat file holding a 15-byte header followed by 5-byte records.

Modelling conventions:
* A file is a `List Nat` of byte values (real files only ever hold values
  `< 256`; theorems that need this carry it as a hypothesis).
* Machine integers are `Nat`s; multi-byte little-endian serialisation reduces
  modulo the width, matching two's-complement wrap-around of the Rust release
  build.
* `PhysicalDB` folds the filesystem into the state: `file` is the contents of
  the backing file at `path`, `handle` says whether the `Option<File>` handle
  is held.  `open`/`seek`/`write`/`sync_all` on an existing, accessible file
  are modelled as infallible; the only `EnodError::IOError` that can arise is
  a short read, exactly as in the claims' setting.
* A Rust panic (an `unwrap()` of an absent handle) is modelled by `Option.none`
  as the operation's overall result, distinct from an `IOError`.
-/

namespace Tslite

/-- Little-endian bytes of a 16-bit value (`write_u16::<LittleEndian>`). -/
def u16le (n : Nat) : List Nat :=
  [n % 256, n / 256 % 256]

/-- Little-endian bytes of a 32-bit value (`write_u32::<LittleEndian>`). -/
def u32le (n : Nat) : List Nat :=
  [n % 256, n / 2 ^ 8 % 256, n / 2 ^ 16 % 256, n / 2 ^ 24 % 256]

/-- Little-endian bytes of a 64-bit value (`write_u64::<LittleEndian>`). -/
def u64le (n : Nat) : List Nat :=
  [n % 256, n / 2 ^ 8 % 256, n / 2 ^ 16 % 256, n / 2 ^ 24 % 256,
   n / 2 ^ 32 % 256, n / 2 ^ 40 % 256, n / 2 ^ 48 % 256, n / 2 ^ 56 % 256]

/-- `read_u16::<LittleEndian>` from the front of a byte list. -/
def readU16 (b : List Nat) : Nat :=
  b.getD 0 0 + 2 ^ 8 * b.getD 1 0

/-- `read_u32::<LittleEndian>` from the front of a byte list. -/
def readU32 (b : List Nat) : Nat :=
  b.getD 0 0 + 2 ^ 8 * b.getD 1 0 + 2 ^ 16 * b.getD 2 0 + 2 ^ 24 * b.getD 3 0

/-- `read_u64::<LittleEndian>` from the front of a byte list. -/
def readU64 (b : List Nat) : Nat :=
  b.getD 0 0 + 2 ^ 8 * b.getD 1 0 + 2 ^ 16 * b.getD 2 0 + 2 ^ 24 * b.getD 3 0 +
  2 ^ 32 * b.getD 4 0 + 2 ^ 40 * b.getD 5 0 + 2 ^ 48 * b.getD 6 0 + 2 ^ 56 * b.getD 7 0

/-- The bytes a `read` into a `k`-byte buffer yields after a seek to `pos`:
as many of the `k` bytes starting at `pos` as the file holds. -/
def readBuf (file : List Nat) (pos k : Nat) : List Nat :=
  (file.drop pos).take k

/-- POSIX write of `data` at absolute position `pos`: overwrite in place,
extend at the end, and zero-fill the gap when `pos` is past end-of-file. -/
def writeBytes (file : List Nat) (pos : Nat) (data : List Nat) : List Nat :=
  (file.take pos ++ List.replicate (pos - file.length) 0) ++ data ++
    file.drop (pos + data.length)

/-- Rust `struct Timestamp`: a date-time in 7 octets, no timezone awareness.
Fields model `u16`/`u8` values. -/
structure Timestamp where
  year : Nat
  month : Nat
  day : Nat
  hour : Nat
  minute : Nat
  second : Nat
deriving DecidableEq, Repr

namespace Timestamp

/-- `Timestamp::as_bytes`: little-endian year then the five byte fields. -/
def as_bytes (t : Timestamp) : List Nat :=
  u16le t.year ++ [t.month, t.day, t.hour, t.minute, t.second]

/-- `From<&[u8]> for Timestamp`: u16 little-endian year, then five bytes.
Call sites always supply a buffer of at least 7 bytes. -/
def fromBytes (d : List Nat) : Timestamp :=
  { year := readU16 d
    month := d.getD 2 0
    day := d.getD 3 0
    hour := d.getD 4 0
    minute := d.getD 5 0
    second := d.getD 6 0 }

/-- `Timestamp::is_valid`, transcribed: range checks, February with the
leap-year rule, and the month-parity day bound for every other month. -/
def is_valid (t : Timestamp) : Bool :=
  let valid := (1 ≤ t.month && t.month ≤ 12) && (1 ≤ t.day) &&
    (t.hour < 24) && (t.minute < 60) && (t.second < 60)
  if t.month = 2 then
    let leap := t.year % 4 = 0 && (!(t.year % 100 = 0) || t.year % 400 = 0)
    if leap then valid && (t.day ≤ 29) else valid && (t.day ≤ 28)
  else
    valid && ((t.month % 2 = 0 && t.day ≤ 30) || (t.month % 2 = 1 && t.day ≤ 31))

end Timestamp

/-- Rust `struct RecordInfo`: `u32` seconds since the origin date and one
`u8` payload byte. -/
structure RecordInfo where
  time_offset : Nat
  value : Nat
deriving DecidableEq, Repr

namespace RecordInfo

/-- `RecordInfo::as_bytes`: little-endian `u32` offset then the value byte. -/
def as_bytes (r : RecordInfo) : List Nat :=
  u32le r.time_offset ++ [r.value]

/-- `From<&[u8]> for RecordInfo`. Call sites always supply 5 bytes. -/
def fromBytes (d : List Nat) : RecordInfo :=
  { time_offset := readU32 d, value := d.getD 4 0 }

end RecordInfo

/-- The `Ord for RecordInfo` comparison: by `time_offset` only. -/
def recordLe (a b : RecordInfo) : Prop :=
  a.time_offset ≤ b.time_offset

instance : DecidableRel recordLe := fun a b =>
  inferInstanceAs (Decidable (a.time_offset ≤ b.time_offset))

instance : IsTotal RecordInfo recordLe :=
  ⟨fun a b => by
    simp only [recordLe]
    omega⟩

instance : IsTrans RecordInfo recordLe :=
  ⟨fun a b c hab hbc => by
    simp only [recordLe] at *
    omega⟩

/-- The comparison sort applied by `reorder_record` (`sort_unstable` with
the `Ord` instance): modelled as a sort by `recordLe`; any comparison
sort yields a `recordLe`-sorted permutation, which is all the source
guarantees about ties. -/
def sortRecords (rs : List RecordInfo) : List RecordInfo :=
  List.insertionSort recordLe rs

/-- Rust `struct DbHeader`. -/
structure DbHeader where
  origin_date : Timestamp
  records_number : Nat
deriving DecidableEq, Repr

namespace DbHeader

/-- `DbHeader::as_bytes`: 7 timestamp bytes then the `u64` record count. -/
def as_bytes (h : DbHeader) : List Nat :=
  h.origin_date.as_bytes ++ u64le h.records_number

/-- `From<&[u8]> for DbHeader`: timestamp from the front, count from
position 7. Call sites always supply 15 bytes. -/
def fromBytes (d : List Nat) : DbHeader :=
  { origin_date := Timestamp.fromBytes d
    records_number := readU64 (d.drop 7) }

end DbHeader

/-- Rust `enum DbIssue`. -/
inductive DbIssue where
  | unorderedRecord
  | headerCorrupted
  | originDateInvalid
  | recordCorrupted (i : Nat)
  | mismatchRecordAmount
  | none
deriving DecidableEq, Repr

/-- Equality of operation results is decidable (used to evaluate the model
on concrete stores). -/
instance {ε α : Type} [DecidableEq ε] [DecidableEq α] :
    DecidableEq (Except ε α) := fun a b =>
  match a, b with
  | .ok x, .ok y =>
    if h : x = y then isTrue (by rw [h])
    else isFalse (fun hc => h (Except.ok.inj hc))
  | .error x, .error y =>
    if h : x = y then isTrue (by rw [h])
    else isFalse (fun hc => h (Except.error.inj hc))
  | .ok x, .error y => isFalse (fun hc => Except.noConfusion hc)
  | .error x, .ok y => isFalse (fun hc => Except.noConfusion hc)

/-- Rust `struct PhysicalDB`: the backing file's contents stand in for the
path, `handle` for the `Option<File>`, `header` for the in-memory cache. -/
structure PhysicalDB where
  file : List Nat
  handle : Bool
  header : DbHeader
deriving DecidableEq, Repr

namespace PhysicalDB

/-- `PhysicalDB::create` with an explicit origin date (the collaborator's
wall-clock default is out of scope): writes a fresh header with count 0 and
leaves the handle closed. -/
def create (origin_date : Timestamp) : PhysicalDB :=
  let header : DbHeader := { origin_date := origin_date, records_number := 0 }
  { file := header.as_bytes, handle := false, header := header }

/-- `PhysicalDB::open`: idempotent; acquires the handle. Opening an existing
accessible file is modelled as infallible. -/
def open_db (s : PhysicalDB) : PhysicalDB :=
  { s with handle := true }

/-- `PhysicalDB::close`: idempotent; syncs (infallible here) and drops the
handle. -/
def close (s : PhysicalDB) : PhysicalDB :=
  { s with handle := false }

/-- `PhysicalDB::read_header`: lazily opens (`if self.file.is_none()`),
seeks to 0, reads into a 15-byte buffer and decodes only a full buffer. -/
def read_header (s : PhysicalDB) : PhysicalDB × Except String DbHeader :=
  let s1 := s.open_db
  let buffer := readBuf s1.file 0 15
  if buffer.length = 15 then
    (s1, .ok (DbHeader.fromBytes buffer))
  else
    (s1, .error "Could not read header: not enough octets.")

/-- `PhysicalDB::read_record`: lazily opens, seeks to `(7+8) + rec_id*5`,
reads into a 5-byte buffer and decodes only a full buffer. -/
def read_record (s : PhysicalDB) (rec_id : Nat) : PhysicalDB × Except String RecordInfo :=
  let s1 := s.open_db
  let pos := (7 + 8) + rec_id * 5
  let buffer := readBuf s1.file pos 5
  if buffer.length = 5 then
    (s1, .ok (RecordInfo.fromBytes buffer))
  else
    (s1, .error "Could not read record: not enough octets.")

/-- `PhysicalDB::update_record_number`: lazily opens, seeks to 7, writes the
cached count plus `drn` as a `u64` (wrapping, as in a release build) and
bumps the cache by the same amount. -/
def update_record_number (s : PhysicalDB) (drn : Nat) : PhysicalDB :=
  let s1 := s.open_db
  let newCount := (s1.header.records_number + drn) % 2 ^ 64
  { s1 with
    file := writeBytes s1.file 7 (u64le newCount)
    header := { s1.header with records_number := newCount } }

/-- `PhysicalDB::append_record`. The source's guard is inverted
(`if self.file.is_some() { self.open()?; }`), so with a closed handle the
`unwrap()` on the absent handle panics — modelled as `Option.none`.
With an open handle: seek to end-of-file, write the 5 record bytes, sync,
then `update_record_number(1)`. -/
def append_record (s : PhysicalDB) (rec_nfo : RecordInfo) : Option PhysicalDB :=
  if s.handle then
    let s1 := { s with file := writeBytes s.file s.file.length rec_nfo.as_bytes }
    some (s1.update_record_number 1)
  else
    Option.none

/-- The record scan of `PhysicalDB::check_db_file`: `time_offset` starts at
0; a failed read at index `i` yields `RecordCorrupted i`; a record whose
offset is below the running offset yields `UnorderedRecord`.  The fuel
argument counts the remaining indices. -/
def scanRecords (s : PhysicalDB) (time_offset : Nat) (i : Nat) : Nat → Option DbIssue
  | 0 => Option.none
  | k + 1 =>
    match (s.read_record i).2 with
    | .error _ => some (DbIssue.recordCorrupted i)
    | .ok r =>
      if time_offset > r.time_offset then some DbIssue.unorderedRecord
      else scanRecords s r.time_offset (i + 1) k

/-- `PhysicalDB::check_db_file`.  (Its own inverted open guard is a no-op;
`read_header` below opens the handle lazily, so the later metadata access
never panics.)  The final size test transcribes the source literally:
`metadata.len() > 120 + 40 * records_number`, whose comments label `120`
and `40` as the header and record sizes. -/
def check_db_file (s : PhysicalDB) : PhysicalDB × DbIssue :=
  match s.read_header with
  | (s1, .error _) => (s1, DbIssue.headerCorrupted)
  | (s1, .ok header) =>
    if ¬ header.origin_date.is_valid then (s1, DbIssue.originDateInvalid)
    else
      match scanRecords s1 0 0 header.records_number with
      | some issue => (s1, issue)
      | Option.none =>
        if s1.file.length > 120 + 40 * header.records_number then
          (s1, DbIssue.mismatchRecordAmount)
        else
          (s1, DbIssue.none)

/-- The read loop of `PhysicalDB::reorder_record`: pushes `records_number`
records in index order, propagating the first read error.  The fuel
argument counts the remaining indices. -/
def readLoop (s : PhysicalDB) (i : Nat) (acc : List RecordInfo) :
    Nat → PhysicalDB × Except String (List RecordInfo)
  | 0 => (s, .ok acc)
  | k + 1 =>
    match s.read_record i with
    | (s1, .ok r) => readLoop s1 (i + 1) (acc ++ [r]) k
    | (s1, .error e) => (s1, .error e)

/-- The write loop of `PhysicalDB::reorder_record`: writes each record's 5
bytes at consecutive positions starting at `pos`. -/
def writeAll (file : List Nat) (pos : Nat) : List RecordInfo → List Nat
  | [] => file
  | r :: rs => writeAll (writeBytes file pos r.as_bytes) (pos + 5) rs

/-- `PhysicalDB::reorder_record`: read all `records_number` (cached) records,
`sort_unstable` them by `Ord` (i.e. by `time_offset`), seek to 15 and rewrite
them all, then sync.  Its open guard is inverted like `append_record`'s, so
when the read loop runs zero times and the handle is closed the `unwrap()`
panics — modelled as `Option.none`. -/
def reorder_record (s : PhysicalDB) : Option (PhysicalDB × Except String Unit) :=
  match readLoop s 0 [] s.header.records_number with
  | (s1, .error e) => some (s1, .error e)
  | (s1, .ok records) =>
    if s1.handle then
      let sorted := sortRecords records
      some ({ s1 with file := writeAll s1.file 15 sorted }, .ok ())
    else
      Option.none

end PhysicalDB

/-! ## Concrete values used by several theorems -/

/-- The origin date `1994-07-08 06:55:34` used by the repository's tests. -/
def tsOrigin : Timestamp := ⟨1994, 7, 8, 6, 55, 34⟩

/-- A file holding a valid 15-byte header with record count 0, followed by
one stray byte: 16 bytes in all. -/
def oversizedFile : List Nat := Timestamp.as_bytes tsOrigin ++ u64le 0 ++ [0]

/-- A file with a valid header announcing 2 records, whose second record's
offset (3) is below the first's (5). -/
def unorderedFile : List Nat :=
  Timestamp.as_bytes tsOrigin ++ u64le 2 ++ (u32le 5 ++ [1]) ++ (u32le 3 ++ [2])

/-- Does the store's in-memory cached record count agree with the on-disk
count field at offset 7 (claim C9's invariant)? -/
def countInv (s : PhysicalDB) : Bool :=
  (15 ≤ s.file.length) && (readU64 (s.file.drop 7) == s.header.records_number)

/-- `countInv` of the state component of a `reorder_record` result. -/
def countInvFst (p : PhysicalDB × Except String Unit) : Bool :=
  countInv p.1

/-- The store state reached from a fresh `tsOrigin` store by `open` then
appending `{time_offset: 5, value: 10}` (used as claim C6's witness). -/
def c6state : PhysicalDB :=
  ⟨Timestamp.as_bytes tsOrigin ++ u64le 1 ++ RecordInfo.as_bytes ⟨5, 10⟩, true,
   ⟨tsOrigin, 1⟩⟩

/-- The file of the repository's `check_unordered_db`/`reorder_db` test
scenario: a valid header with count 10, then records with strictly
decreasing offsets 9 down to 0 and values 0 up to 9. -/
def c7file : List Nat :=
  Timestamp.as_bytes tsOrigin ++ u64le 10 ++
    (List.range 10).flatMap (fun i => RecordInfo.as_bytes ⟨9 - i, i⟩)

/-- That scenario's store, with the handle open and the cached header in
sync with the disk. -/
def c7db : PhysicalDB := ⟨c7file, true, DbHeader.fromBytes (c7file.take 15)⟩

/-- The expected store after `reorder_record` on `c7db`: the same header,
records now with ascending offsets 0 up to 9 (values 9 down to 0). -/
def c7post : PhysicalDB :=
  ⟨Timestamp.as_bytes tsOrigin ++ u64le 10 ++
    (List.range 10).flatMap (fun i => RecordInfo.as_bytes ⟨i, 9 - i⟩), true,
   DbHeader.fromBytes (c7file.take 15)⟩

/-- A consistent one-record file whose origin date is invalid (month 0). -/
def invalidOriginFile : List Nat :=
  Timestamp.as_bytes ⟨2020, 0, 1, 0, 0, 0⟩ ++ u64le 1 ++ RecordInfo.as_bytes ⟨5, 1⟩

/-- The store over `invalidOriginFile`, handle open, cache in sync. -/
def invalidOriginDb : PhysicalDB :=
  ⟨invalidOriginFile, true, DbHeader.fromBytes (invalidOriginFile.take 15)⟩

set_option maxRecDepth 8000

/-! ## Spec-side vocabulary for the record scan (claim C5's wording) -/

/-- Does the file fully contain record slot `i` (bytes `15+5i .. 20+5i`)? -/
def readableSlot (file : List Nat) (i : Nat) : Bool :=
  20 + 5 * i ≤ file.length

/-- The record decoded from slot `i`'s bytes. -/
def slotRecord (file : List Nat) (i : Nat) : RecordInfo :=
  RecordInfo.fromBytes ((file.drop (15 + 5 * i)).take 5)

/-- The previous record's `time_offset` seen at slot `i`, with the sentinel
of 0 for the first record. -/
def prevOffset (file : List Nat) (i : Nat) : Nat :=
  match i with
  | 0 => 0
  | j + 1 => (slotRecord file j).time_offset

/-- Slot `i` is flagged by the scan: unreadable, or its `time_offset` is
strictly below the previous record's. -/
def badSlot (file : List Nat) (i : Nat) : Bool :=
  !readableSlot file i || decide ((slotRecord file i).time_offset < prevOffset file i)

/-- Modelled from the claim's words, for comparison with `check_db_file`:
the first issue in a fixed order — `HeaderCorrupted` when fewer than 15
bytes are available, else `OriginDateInvalid` when the origin date is
invalid, else the verdict of the *first* flagged slot among indices
`0..records_number` (`RecordCorrupted i` when unreadable, otherwise
`UnorderedRecord`); `Option.none` when the scan flags nothing. -/
def firstIssueSpec (file : List Nat) : Option DbIssue :=
  if file.length < 15 then some DbIssue.headerCorrupted
  else if ¬ (DbHeader.fromBytes (file.take 15)).origin_date.is_valid then
    some DbIssue.originDateInvalid
  else
    match (List.range (DbHeader.fromBytes (file.take 15)).records_number).find?
        (badSlot file) with
    | some i =>
      if readableSlot file i then some DbIssue.unorderedRecord
      else some (DbIssue.recordCorrupted i)
    | Option.none => Option.none

/-- The results of reading records `0..n` back from a store, in index
order. -/
def readBack (s : PhysicalDB) (n : Nat) : List (Except String RecordInfo) :=
  (List.range n).map (fun i => (s.read_record i).2)

/-- The records held in slots `0..n` of a file. -/
def storedRecords (file : List Nat) (n : Nat) : List RecordInfo :=
  (List.range n).map (slotRecord file)

/-! ## Helper lemmas -/

/-- `read_record` depends only on the file bytes at the slot: it opens the
handle, succeeds exactly when slot `rec_id` lies within the file, and then
decodes the slot's 5 bytes. -/
lemma read_record_spec (s : PhysicalDB) (i : Nat) :
    s.read_record i = (s.open_db,
      if readableSlot s.file i then Except.ok (slotRecord s.file i)
      else Except.error "Could not read record: not enough octets.") := by
  have harg : 7 + 8 + i * 5 = 15 + 5 * i := by omega
  simp only [PhysicalDB.read_record, readBuf, harg]
  have hc : ((s.open_db.file.drop (15 + 5 * i)).take 5).length = 5 ↔
      readableSlot s.file i = true := by
    simp only [List.length_take, List.length_drop, readableSlot, PhysicalDB.open_db,
      decide_eq_true_eq]
    omega
  by_cases h : readableSlot s.file i
  · rw [if_pos (hc.mpr h), if_pos h]
    rfl
  · rw [if_neg (fun hh => h (hc.mp hh)), if_neg h]

/-- `read_header` opens the handle, succeeds exactly when the file holds at
least 15 bytes, and then decodes the first 15 bytes. -/
lemma read_header_spec (s : PhysicalDB) :
    s.read_header = (s.open_db,
      if 15 ≤ s.file.length then Except.ok (DbHeader.fromBytes (s.file.take 15))
      else Except.error "Could not read header: not enough octets.") := by
  simp only [PhysicalDB.read_header, readBuf, List.drop_zero]
  have hc : (s.open_db.file.take 15).length = 15 ↔ 15 ≤ s.file.length := by
    simp only [List.length_take, PhysicalDB.open_db]
    omega
  by_cases h : 15 ≤ s.file.length
  · rw [if_pos (hc.mpr h), if_pos h]
    rfl
  · rw [if_neg (fun hh => h (hc.mp hh)), if_neg h]

/-- One unfolding step of the scan loop, with the record read expressed
through `readableSlot`/`slotRecord`. -/
lemma scanRecords_succ (s : PhysicalDB) (prev i k : Nat) :
    PhysicalDB.scanRecords s prev i (k + 1) =
      if readableSlot s.file i then
        (if prev > (slotRecord s.file i).time_offset then some DbIssue.unorderedRecord
         else PhysicalDB.scanRecords s (slotRecord s.file i).time_offset (i + 1) k)
      else some (DbIssue.recordCorrupted i) := by
  simp only [PhysicalDB.scanRecords, read_record_spec]
  by_cases hr : readableSlot s.file i <;> simp [hr]

/-- The scan loop of `check_db_file` agrees with the first flagged slot of
the claim's description, provided the running offset entering index `i` is
`prevOffset` at `i`. -/
lemma scanRecords_eq (s : PhysicalDB) :
    ∀ (k i prev : Nat), prev = prevOffset s.file i →
    PhysicalDB.scanRecords s prev i k =
      match (List.range' i k).find? (badSlot s.file) with
      | some j =>
        some (if readableSlot s.file j then DbIssue.unorderedRecord
              else DbIssue.recordCorrupted j)
      | Option.none => Option.none := by
  intro k
  induction k with
  | zero => intro i prev _; rfl
  | succ k ih =>
    intro i prev hprev
    have hrange : List.range' i (k + 1) = i :: List.range' (i + 1) k := rfl
    rw [scanRecords_succ, hrange]
    by_cases hr : readableSlot s.file i
    · by_cases ho : prev > (slotRecord s.file i).time_offset
      · have hb : badSlot s.file i = true := by
          subst hprev
          simp only [badSlot, Bool.or_eq_true, decide_eq_true_eq]
          right
          omega
        rw [List.find?_cons_of_pos _ hb, if_pos hr, if_pos ho]
        simp [hr]
      · have hb : ¬ badSlot s.file i = true := by
          subst hprev
          simp only [badSlot, hr, Bool.not_true, Bool.false_or, decide_eq_true_eq]
          omega
        rw [List.find?_cons_of_neg _ hb, if_pos hr, if_neg ho]
        exact ih (i + 1) (slotRecord s.file i).time_offset rfl
    · have hb : badSlot s.file i = true := by
        simp [badSlot, hr]
      rw [List.find?_cons_of_pos _ hb, if_neg hr]
      simp [hr]

/-- Decoding the 7 encoded bytes of a timestamp restores it, provided the
fields fit their machine widths. -/
lemma timestamp_fromBytes_as_bytes (t : Timestamp)
    (hy : t.year < 2 ^ 16) (hmo : t.month < 2 ^ 8) (hd : t.day < 2 ^ 8)
    (hh : t.hour < 2 ^ 8) (hmi : t.minute < 2 ^ 8) (hs : t.second < 2 ^ 8) :
    Timestamp.fromBytes t.as_bytes = t := by
  obtain ⟨y, mo, d, h, mi, s⟩ := t
  simp only [Timestamp.as_bytes, Timestamp.fromBytes, u16le, readU16,
    List.cons_append, List.nil_append, List.getD_cons_succ, List.getD_cons_zero,
    Timestamp.mk.injEq, and_true, true_and] at *
  omega

/-- Decoding the 5 encoded bytes of a record restores it, provided the
fields fit their machine widths. -/
lemma record_fromBytes_as_bytes (r : RecordInfo)
    (ho : r.time_offset < 2 ^ 32) (hv : r.value < 2 ^ 8) :
    RecordInfo.fromBytes r.as_bytes = r := by
  obtain ⟨off, v⟩ := r
  simp only [RecordInfo.as_bytes, RecordInfo.fromBytes, u32le, readU32,
    List.cons_append, List.nil_append, List.getD_cons_succ, List.getD_cons_zero,
    RecordInfo.mk.injEq, and_true, true_and] at *
  omega

lemma record_as_bytes_length (r : RecordInfo) : r.as_bytes.length = 5 := rfl

lemma writeBytes_length (f d : List Nat) (p : Nat) :
    (writeBytes f p d).length = max f.length (p + d.length) := by
  simp only [writeBytes, List.length_append, List.length_take, List.length_drop,
    List.length_replicate]
  omega

/-- A write positioned at end-of-file appends. -/
lemma writeBytes_at_end (f d : List Nat) : writeBytes f f.length d = f ++ d := by
  simp only [writeBytes, Nat.sub_self, List.replicate_zero, List.take_length,
    List.append_nil]
  rw [List.drop_eq_nil_of_le (by omega)]
  simp

/-- A write wholly past byte 15 leaves the first 15 bytes unchanged. -/
lemma take15_writeBytes (f d : List Nat) (p : Nat) (hf : 15 ≤ f.length)
    (hp : 15 ≤ p) :
    (writeBytes f p d).take 15 = f.take 15 := by
  unfold writeBytes
  rw [List.append_assoc]
  rw [List.take_append_of_le_length (by simp [List.length_take]; omega)]
  rw [List.take_append_of_le_length (by simp [List.length_take]; omega)]
  rw [List.take_take]
  congr 1
  omega

/-- The count field read at offset 7 only depends on the first 15 bytes. -/
lemma readU64_drop7_congr (f g : List Nat) (h : f.take 15 = g.take 15) :
    readU64 (f.drop 7) = readU64 (g.drop 7) := by
  have key : ∀ i, i < 8 → (f.drop 7).getD i 0 = (g.drop 7).getD i 0 := by
    intro i hi
    have h15 : 7 + i < 15 := by omega
    rw [List.getD_eq_getElem?_getD, List.getD_eq_getElem?_getD,
      List.getElem?_drop, List.getElem?_drop,
      show f[7 + i]? = (f.take 15)[7 + i]? from (List.getElem?_take_of_lt h15).symm,
      h, List.getElem?_take_of_lt h15]
  unfold readU64
  rw [key 0 (by omega), key 1 (by omega), key 2 (by omega), key 3 (by omega),
    key 4 (by omega), key 5 (by omega), key 6 (by omega), key 7 (by omega)]

/-- Reading back the `u64` little-endian bytes of `m < 2^64`. -/
lemma readU64_u64le_append (m : Nat) (l : List Nat) (h : m < 2 ^ 64) :
    readU64 (u64le m ++ l) = m := by
  simp only [readU64, u64le, List.cons_append, List.nil_append,
    List.getD_cons_succ, List.getD_cons_zero]
  omega

/-- Every default-0 indexed read from a list of bytes is a byte. -/
lemma getD_lt_256 (f : List Nat) (hb : ∀ b ∈ f, b < 256) (i : Nat) :
    f.getD i 0 < 256 := by
  rw [List.getD_eq_getElem?_getD]
  cases hx : f[i]? with
  | none => simp
  | some x => simpa using hb x (List.getElem?_mem hx)

/-- Reading an eight-byte count only consults the first eight bytes. -/
lemma readU64_append_left (x y : List Nat) (h : 8 ≤ x.length) :
    readU64 (x ++ y) = readU64 x := by
  unfold readU64
  rw [List.getD_append _ _ _ _ (by omega), List.getD_append _ _ _ _ (by omega),
    List.getD_append _ _ _ _ (by omega), List.getD_append _ _ _ _ (by omega),
    List.getD_append _ _ _ _ (by omega), List.getD_append _ _ _ _ (by omega),
    List.getD_append _ _ _ _ (by omega), List.getD_append _ _ _ _ (by omega)]

/-- `countInv` only looks at the file bytes and the cached header. -/
lemma countInv_congr (s' s : PhysicalDB) (hf : s'.file = s.file)
    (hh : s'.header = s.header) : countInv s' = countInv s := by
  simp [countInv, hf, hh]

/-- `check_db_file` always hands back the lazily opened store. -/
lemma check_db_file_fst (s : PhysicalDB) : s.check_db_file.1 = s.open_db := by
  unfold PhysicalDB.check_db_file
  rw [read_header_spec]
  by_cases h15 : 15 ≤ s.file.length
  · rw [if_pos h15]
    dsimp only
    split
    · rfl
    · split
      · rfl
      · split
        · rfl
        · rfl
  · rw [if_neg h15]

/-- One unfolding step of `reorder_record`'s read loop. -/
lemma readLoop_succ (s : PhysicalDB) (i : Nat) (acc : List RecordInfo) (k : Nat) :
    PhysicalDB.readLoop s i acc (k + 1) =
      if readableSlot s.file i then
        PhysicalDB.readLoop s.open_db (i + 1) (acc ++ [slotRecord s.file i]) k
      else (s.open_db, .error "Could not read record: not enough octets.") := by
  show (match s.read_record i with
    | (s1, .ok r) => PhysicalDB.readLoop s1 (i + 1) (acc ++ [r]) k
    | (s1, .error e) => (s1, .error e)) = _
  rw [read_record_spec]
  by_cases hr : readableSlot s.file i
  · rw [if_pos hr, if_pos hr]
  · rw [if_neg hr, if_neg hr]

/-- The read loop of `reorder_record` never changes the file or the cached
header. -/
lemma readLoop_fst (s : PhysicalDB) : ∀ (k i : Nat) (acc : List RecordInfo),
    (PhysicalDB.readLoop s i acc k).1.file = s.file ∧
    (PhysicalDB.readLoop s i acc k).1.header = s.header := by
  intro k
  induction k generalizing s with
  | zero => intro i acc; exact ⟨rfl, rfl⟩
  | succ k ih =>
    intro i acc
    rw [readLoop_succ]
    by_cases hr : readableSlot s.file i
    · rw [if_pos hr]
      exact ih s.open_db (i + 1) (acc ++ [slotRecord s.file i])
    · rw [if_neg hr]
      exact ⟨rfl, rfl⟩

/-- Writes of the record region (positions 15 and beyond) keep the file at
least 15 bytes long and leave the first 15 bytes unchanged. -/
lemma writeAll_take15 : ∀ (rs : List RecordInfo) (file : List Nat) (pos : Nat),
    15 ≤ file.length → 15 ≤ pos →
    15 ≤ (PhysicalDB.writeAll file pos rs).length ∧
    (PhysicalDB.writeAll file pos rs).take 15 = file.take 15 := by
  intro rs
  induction rs with
  | nil => intro file pos h15 _; exact ⟨h15, rfl⟩
  | cons r rs ih =>
    intro file pos h15 hpos
    have hw15 : 15 ≤ (writeBytes file pos r.as_bytes).length := by
      rw [writeBytes_length]; omega
    obtain ⟨hlen, htake⟩ := ih (writeBytes file pos r.as_bytes) (pos + 5) hw15 (by omega)
    refine ⟨hlen, ?_⟩
    rw [PhysicalDB.writeAll, htake, take15_writeBytes _ _ _ h15 hpos]

/-- `update_record_number` writes the adjusted count to offset 7 and bumps
the cache by the same amount, so the two stay in agreement. -/
lemma countInv_update (s : PhysicalDB) (drn : Nat) (h : countInv s = true) :
    countInv (s.update_record_number drn) = true := by
  simp only [countInv, Bool.and_eq_true, decide_eq_true_eq, beq_iff_eq] at h
  obtain ⟨h15, _⟩ := h
  have hdrop : (writeBytes s.file 7
        (u64le ((s.header.records_number + drn) % 2 ^ 64))).drop 7 =
      u64le ((s.header.records_number + drn) % 2 ^ 64) ++ s.file.drop (7 + 8) := by
    unfold writeBytes
    rw [Nat.sub_eq_zero_of_le (by omega), List.replicate_zero, List.append_nil,
      List.append_assoc, List.drop_left' (by simp [List.length_take]; omega)]
    rfl
  simp only [countInv, PhysicalDB.update_record_number, PhysicalDB.open_db,
    Bool.and_eq_true, decide_eq_true_eq, beq_iff_eq]
  constructor
  · rw [writeBytes_length]
    show 15 ≤ max s.file.length (7 + 8)
    omega
  · rw [hdrop, readU64_u64le_append _ _ (Nat.mod_lt _ (by norm_num))]

/-- A successful `append_record` leaves cache and disk count in
agreement: the data write lands past byte 15 and the count update keeps
both sides in step. -/
lemma countInv_append (s : PhysicalDB) (r : RecordInfo) (s1 : PhysicalDB)
    (h : countInv s = true) (happ : s.append_record r = some s1) :
    countInv s1 = true := by
  unfold PhysicalDB.append_record at happ
  by_cases hs : s.handle
  · rw [if_pos hs] at happ
    obtain rfl := (Option.some.inj happ).symm
    apply countInv_update
    simp only [countInv, Bool.and_eq_true, decide_eq_true_eq, beq_iff_eq] at h ⊢
    obtain ⟨h15, hc⟩ := h
    rw [writeBytes_at_end]
    refine ⟨by simp; omega, ?_⟩
    rw [List.drop_append_eq_append_drop, Nat.sub_eq_zero_of_le (by omega),
      List.drop_zero, readU64_append_left _ _ (by simp; omega)]
    exact hc
  · rw [if_neg hs] at happ
    exact absurd happ (by simp)

/-- `reorder_record` (whether it succeeds, errors out, or panics) never
breaks the count agreement: it only rewrites the record region. -/
lemma countInv_reorder (s : PhysicalDB) (h : countInv s = true) :
    Option.all countInvFst s.reorder_record = true := by
  unfold PhysicalDB.reorder_record
  obtain ⟨hfile, hheader⟩ := readLoop_fst s s.header.records_number 0 []
  rcases hloop : PhysicalDB.readLoop s 0 [] s.header.records_number with ⟨s1, res⟩
  rw [hloop] at hfile hheader
  dsimp only at hfile hheader
  cases res with
  | error e =>
    simpa [Option.all, countInvFst, countInv_congr s1 s hfile hheader] using h
  | ok records =>
    dsimp only
    by_cases hh : s1.handle
    · rw [if_pos hh]
      show countInvFst (_, Except.ok ()) = true
      simp only [countInvFst]
      simp only [countInv, Bool.and_eq_true, decide_eq_true_eq, beq_iff_eq] at h ⊢
      obtain ⟨h15, hc⟩ := h
      obtain ⟨hlen, htake⟩ := writeAll_take15 (sortRecords records)
        s1.file 15 (by rw [hfile]; exact h15) (by omega)
      refine ⟨hlen, ?_⟩
      rw [readU64_drop7_congr _ s1.file htake, hfile, hheader]
      exact hc
    · rw [if_neg hh]
      rfl

lemma open_db_eq_self (s : PhysicalDB) (h : s.handle = true) : s.open_db = s := by
  cases s
  simp_all [PhysicalDB.open_db]

/-- When every slot it visits is readable, the read loop returns the
stored records in index order and leaves the state unchanged. -/
lemma readLoop_ok (s : PhysicalDB) (hs : s.open_db = s) :
    ∀ (k i : Nat) (acc : List RecordInfo),
    (∀ j, i ≤ j → j < i + k → readableSlot s.file j = true) →
    PhysicalDB.readLoop s i acc k =
      (s, Except.ok (acc ++ (List.range' i k).map (slotRecord s.file))) := by
  intro k
  induction k with
  | zero => intro i acc _; simp [PhysicalDB.readLoop]
  | succ k ih =>
    intro i acc hread
    rw [readLoop_succ, if_pos (hread i (Nat.le_refl i) (by omega)), hs]
    rw [ih (i + 1) (acc ++ [slotRecord s.file i])
      (fun j h1 h2 => hread j (by omega) (by omega))]
    rw [show List.range' i (k + 1) = i :: List.range' (i + 1) k from rfl]
    simp [List.append_assoc]

/-- The write loop equals one splice of the concatenated encodings. -/
lemma writeAll_spec : ∀ (rs : List RecordInfo) (f : List Nat) (p : Nat),
    p ≤ f.length →
    PhysicalDB.writeAll f p rs =
      f.take p ++ rs.flatMap RecordInfo.as_bytes ++ f.drop (p + 5 * rs.length) := by
  intro rs
  induction rs with
  | nil =>
    intro f p hp
    simp [PhysicalDB.writeAll]
  | cons r rs ih =>
    intro f p hp
    have hwb : writeBytes f p r.as_bytes = f.take p ++ r.as_bytes ++ f.drop (p + 5) := by
      unfold writeBytes
      rw [Nat.sub_eq_zero_of_le hp, List.replicate_zero, List.append_nil,
        record_as_bytes_length]
    have hXlen : p + 5 ≤ (f.take p ++ r.as_bytes ++ f.drop (p + 5)).length := by
      simp [List.length_take, record_as_bytes_length]
      omega
    rw [PhysicalDB.writeAll, hwb, ih _ _ hXlen]
    have htk : (f.take p ++ r.as_bytes ++ f.drop (p + 5)).take (p + 5) =
        f.take p ++ r.as_bytes := by
      exact List.take_left' (by simp [List.length_take, record_as_bytes_length]; omega)
    have hdp : (f.take p ++ r.as_bytes ++ f.drop (p + 5)).drop (p + 5 + 5 * rs.length) =
        f.drop (p + 5 * (r :: rs).length) := by
      rw [show p + 5 + 5 * rs.length =
        (f.take p ++ r.as_bytes).length + 5 * rs.length from by
          simp [List.length_take, record_as_bytes_length]; omega]
      rw [List.drop_append, List.drop_drop]
      congr 1
      simp
      omega
    rw [htk, hdp]
    simp [List.append_assoc]

lemma flatMap_as_bytes_length : ∀ rs : List RecordInfo,
    (rs.flatMap RecordInfo.as_bytes).length = 5 * rs.length := by
  intro rs
  induction rs with
  | nil => rfl
  | cons r rs ih =>
    simp only [List.flatMap_cons, List.length_append, record_as_bytes_length, ih,
      List.length_cons]
    omega

/-- Slot `i` of a concatenation of record encodings is record `i`'s
encoding. -/
lemma flatMap_as_bytes_chunk : ∀ (rs : List RecordInfo) (i : Nat), i < rs.length →
    ((rs.flatMap RecordInfo.as_bytes).drop (5 * i)).take 5 =
      (rs.getD i ⟨0, 0⟩).as_bytes := by
  intro rs
  induction rs with
  | nil => intro i hi; simp at hi
  | cons r rs ih =>
    intro i hi
    cases i with
    | zero =>
      simp only [Nat.mul_zero, List.drop_zero, List.flatMap_cons, List.getD_cons_zero]
      exact List.take_left' (record_as_bytes_length r)
    | succ i =>
      simp only [List.flatMap_cons, List.getD_cons_succ]
      rw [show 5 * (i + 1) = r.as_bytes.length + 5 * i from by
        rw [record_as_bytes_length]; omega]
      rw [List.drop_append]
      exact ih i (by simp at hi; omega)

/-- Record slot `i` of a 15-byte header followed by concatenated record
encodings decodes record `i`'s encoding. -/
lemma slotRecord_append_chunk (hdr : List Nat) (rs : List RecordInfo)
    (h15 : hdr.length = 15) (i : Nat) (hi : i < rs.length) :
    slotRecord (hdr ++ rs.flatMap RecordInfo.as_bytes) i =
      RecordInfo.fromBytes (rs.getD i ⟨0, 0⟩).as_bytes := by
  unfold slotRecord
  rw [show 15 + 5 * i = hdr.length + 5 * i from by omega, List.drop_append,
    flatMap_as_bytes_chunk rs i hi]

/-- The sort used by `reorder_record` produces a list that is pairwise
non-decreasing in `time_offset`. -/
lemma sortRecords_sorted (rs : List RecordInfo) :
    List.Pairwise recordLe (sortRecords rs) :=
  List.sorted_insertionSort recordLe rs

/-- The sort used by `reorder_record` permutes its input. -/
lemma sortRecords_perm (rs : List RecordInfo) : (sortRecords rs).Perm rs :=
  List.perm_insertionSort recordLe rs

/-- A record decoded from the bytes of a real (byte-valued) file has fields
within their machine widths. -/
lemma slotRecord_bounds (f : List Nat) (hb : ∀ b ∈ f, b < 256) (i : Nat) :
    (slotRecord f i).time_offset < 2 ^ 32 ∧ (slotRecord f i).value < 2 ^ 8 := by
  have hsub : ∀ b ∈ (f.drop (15 + 5 * i)).take 5, b < 256 := by
    intro b hbmem
    exact hb b (List.mem_of_mem_drop (List.mem_of_mem_take hbmem))
  have h0 := getD_lt_256 _ hsub 0
  have h1 := getD_lt_256 _ hsub 1
  have h2 := getD_lt_256 _ hsub 2
  have h3 := getD_lt_256 _ hsub 3
  have h4 := getD_lt_256 _ hsub 4
  simp only [slotRecord, RecordInfo.fromBytes, readU32]
  omega

/-! ## Claims -/

/-- C2: the claim says `is_valid` bounds each month's day by the actual
calendar length (31 for August, October, December; 30 for September,
November).  The source instead bounds days by month parity
(`month % 2 == 0 → day ≤ 30`), which is only right through July: it rejects
the valid dates 2020-08-31 and 2020-12-31 and accepts the nonexistent
2020-09-31. -/
theorem is_valid_uses_month_parity :
    Timestamp.is_valid ⟨2020, 8, 31, 0, 0, 0⟩ = false ∧
    Timestamp.is_valid ⟨2020, 12, 31, 0, 0, 0⟩ = false ∧
    Timestamp.is_valid ⟨2020, 9, 31, 0, 0, 0⟩ = true := by decide

/-- C8: `is_valid` rejects month 0 and 13, day 0, hour 24, minute 60 and
second 60, rejects February 29 of a non-leap year (the leap rule being
divisible by 4 and, not by 100 or by 400), and accepts February 29 of a
leap year when the time fields are in range. -/
theorem is_valid_boundary_cases (t : Timestamp) :
    (t.month = 0 → t.is_valid = false) ∧
    (t.month = 13 → t.is_valid = false) ∧
    (t.day = 0 → t.is_valid = false) ∧
    (t.hour = 24 → t.is_valid = false) ∧
    (t.minute = 60 → t.is_valid = false) ∧
    (t.second = 60 → t.is_valid = false) ∧
    (t.month = 2 → t.day = 29 →
      ¬(t.year % 4 = 0 ∧ (t.year % 100 ≠ 0 ∨ t.year % 400 = 0)) →
      t.is_valid = false) ∧
    (t.month = 2 → t.day = 29 → t.year % 4 = 0 →
      (t.year % 100 ≠ 0 ∨ t.year % 400 = 0) →
      t.hour < 24 → t.minute < 60 → t.second < 60 →
      t.is_valid = true) := by
  obtain ⟨y, mo, d, h, mi, s⟩ := t
  refine ⟨?_, ?_, ?_, ?_, ?_, ?_, ?_, ?_⟩ <;>
    simp only [Timestamp.is_valid] <;> intros <;> subst_vars <;>
    by_cases h4 : y % 4 = 0 <;> by_cases h100 : y % 100 = 0 <;>
    by_cases h400 : y % 400 = 0 <;>
    simp_all

/-- C8 witness: the boundary cases at concrete timestamps, among them
1900-02-29 (rejected: 1900 is no leap year) and 2000-02-29 (accepted). -/
theorem is_valid_boundary_cases_witness :
    Timestamp.is_valid ⟨2020, 0, 5, 0, 0, 0⟩ = false ∧
    Timestamp.is_valid ⟨2020, 13, 5, 0, 0, 0⟩ = false ∧
    Timestamp.is_valid ⟨2020, 5, 0, 0, 0, 0⟩ = false ∧
    Timestamp.is_valid ⟨2020, 5, 5, 24, 0, 0⟩ = false ∧
    Timestamp.is_valid ⟨2020, 5, 5, 0, 60, 0⟩ = false ∧
    Timestamp.is_valid ⟨2020, 5, 5, 0, 0, 60⟩ = false ∧
    Timestamp.is_valid ⟨1900, 2, 29, 0, 0, 0⟩ = false ∧
    Timestamp.is_valid ⟨2000, 2, 29, 6, 55, 34⟩ = true :=
  ⟨(is_valid_boundary_cases ⟨2020, 0, 5, 0, 0, 0⟩).1 rfl,
   (is_valid_boundary_cases ⟨2020, 13, 5, 0, 0, 0⟩).2.1 rfl,
   (is_valid_boundary_cases ⟨2020, 5, 0, 0, 0, 0⟩).2.2.1 rfl,
   (is_valid_boundary_cases ⟨2020, 5, 5, 24, 0, 0⟩).2.2.2.1 rfl,
   (is_valid_boundary_cases ⟨2020, 5, 5, 0, 60, 0⟩).2.2.2.2.1 rfl,
   (is_valid_boundary_cases ⟨2020, 5, 5, 0, 0, 60⟩).2.2.2.2.2.1 rfl,
   (is_valid_boundary_cases ⟨1900, 2, 29, 0, 0, 0⟩).2.2.2.2.2.2.1 rfl rfl
     (by decide),
   (is_valid_boundary_cases ⟨2000, 2, 29, 6, 55, 34⟩).2.2.2.2.2.2.2 rfl rfl
     (by decide) (by decide) (by decide) (by decide) (by decide)⟩

/-- C4: decoding the bytes produced by encoding restores the original value,
for the 7-byte timestamp codec and the 5-byte record codec, whenever the
fields fit their machine widths (as `u16`/`u8`/`u32` fields always do). -/
theorem codec_roundtrip (t : Timestamp) (r : RecordInfo)
    (hy : t.year < 2 ^ 16) (hmo : t.month < 2 ^ 8) (hd : t.day < 2 ^ 8)
    (hh : t.hour < 2 ^ 8) (hmi : t.minute < 2 ^ 8) (hs : t.second < 2 ^ 8)
    (ho : r.time_offset < 2 ^ 32) (hv : r.value < 2 ^ 8) :
    Timestamp.fromBytes t.as_bytes = t ∧ RecordInfo.fromBytes r.as_bytes = r :=
  ⟨timestamp_fromBytes_as_bytes t hy hmo hd hh hmi hs,
   record_fromBytes_as_bytes r ho hv⟩

/-- C4 witness: the round trip at the concrete timestamp `1994-07-08
06:55:34` and the concrete record `{time_offset: 5, value: 10}`. -/
theorem codec_roundtrip_witness :
    Timestamp.fromBytes (Timestamp.as_bytes ⟨1994, 7, 8, 6, 55, 34⟩) =
      ⟨1994, 7, 8, 6, 55, 34⟩ ∧
    RecordInfo.fromBytes (RecordInfo.as_bytes ⟨5, 10⟩) = ⟨5, 10⟩ :=
  codec_roundtrip ⟨1994, 7, 8, 6, 55, 34⟩ ⟨5, 10⟩ (by decide) (by decide)
    (by decide) (by decide) (by decide) (by decide) (by decide) (by decide)

/-- C3: the claim says `append_record` ensures the file is open before use
and never faults on an absent handle.  The source's guard is inverted
(`if self.file.is_some() { self.open()?; }`), so whenever the handle is
closed the open is skipped and `self.file.as_ref().unwrap()` panics:
the operation faults (modelled by `Option.none`) for every store whose
handle is closed, instead of opening lazily. -/
theorem append_record_panics_when_closed (file : List Nat) (header : DbHeader)
    (r : RecordInfo) :
    PhysicalDB.append_record ⟨file, false, header⟩ r = Option.none := rfl

/-- C1: the claim says `check_db_file` reports `MismatchRecordAmount`
exactly when the file size exceeds `15 + 5 * records_number` bytes.  The
source compares against `120 + 40 * records_number` — the header and record
sizes in bits, not bytes, although its comments label the constants as the
sizes.  On a 16-byte file with a valid header and `records_number = 0`
(size 16 > 15) it therefore reports no issue, and it needs 121 bytes
(`> 120`) before `MismatchRecordAmount` appears. -/
theorem check_db_file_mismatch_uses_bit_sizes :
    oversizedFile.length = 16 ∧
    (DbHeader.fromBytes (oversizedFile.take 15)).records_number = 0 ∧
    (PhysicalDB.check_db_file
      ⟨oversizedFile, false, DbHeader.fromBytes (oversizedFile.take 15)⟩).2 =
      DbIssue.none ∧
    (PhysicalDB.check_db_file
      ⟨oversizedFile ++ List.replicate 105 0, false,
        DbHeader.fromBytes (oversizedFile.take 15)⟩).2 =
      DbIssue.mismatchRecordAmount := by decide

/-- C10: `read_record` performs no bounds check against the header's
`records_number`: for every store state (whatever its cached header says)
and every index `i`, it succeeds and returns the decoded 5 bytes at
absolute offset `15 + 5*i` whenever the file holds at least `20 + 5*i`
bytes, and otherwise fails with an `IOError` (short read). -/
theorem read_record_no_bounds_check (s : PhysicalDB) (i : Nat) :
    s.read_record i = (s.open_db,
      if 20 + 5 * i ≤ s.file.length then
        Except.ok (RecordInfo.fromBytes ((s.file.drop (15 + 5 * i)).take 5))
      else Except.error "Could not read record: not enough octets.") := by
  rw [read_record_spec]
  by_cases h : 20 + 5 * i ≤ s.file.length
  · rw [if_pos (by simpa [readableSlot] using h), if_pos h]
    rfl
  · rw [if_neg (by simpa [readableSlot] using h), if_neg h]

/-- C5: `check_db_file` returns the first issue in a fixed order —
`HeaderCorrupted` when fewer than 15 bytes are readable, else
`OriginDateInvalid` when the origin date is invalid, else the verdict of
the first flagged slot of the scan over `0..records_number`
(`RecordCorrupted i` for the first unreadable record, `UnorderedRecord`
for the first record whose offset drops below its predecessor's, the
first record being compared against the sentinel 0) — as captured by the
spec-side `firstIssueSpec`. -/
theorem check_db_file_first_issue (s : PhysicalDB) (issue : DbIssue)
    (h : firstIssueSpec s.file = some issue) :
    s.check_db_file.2 = issue := by
  unfold firstIssueSpec at h
  simp only [PhysicalDB.check_db_file, read_header_spec]
  by_cases hlen : 15 ≤ s.file.length
  · rw [if_neg (by omega)] at h
    rw [if_pos hlen]
    dsimp only
    by_cases hv : (DbHeader.fromBytes (s.file.take 15)).origin_date.is_valid
    · rw [if_neg (by simp [hv])] at h
      rw [if_neg (by simp [hv])]
      rw [List.range_eq_range'] at h
      rw [scanRecords_eq s.open_db (DbHeader.fromBytes (s.file.take 15)).records_number
        0 0 rfl]
      have hfile : s.open_db.file = s.file := rfl
      rw [hfile]
      rcases hfind : (List.range' 0 (DbHeader.fromBytes (s.file.take 15)).records_number).find?
          (badSlot s.file) with _ | j
      · rw [hfind] at h
        simp at h
      · rw [hfind] at h
        dsimp only at h ⊢
        by_cases hr : readableSlot s.file j
        · rw [if_pos hr] at h ⊢
          exact Option.some.inj h
        · rw [if_neg hr] at h ⊢
          exact Option.some.inj h
    · rw [if_pos hv] at h
      rw [if_pos hv]
      simp only [Option.some.injEq] at h
      simp [h]
  · rw [if_pos (by omega)] at h
    rw [if_neg hlen]
    simp only [Option.some.injEq] at h
    simp [h]

/-- C5 witness: on the concrete out-of-order file, the spec-side first
issue is `UnorderedRecord` and `check_db_file` returns it. -/
theorem check_db_file_first_issue_witness :
    firstIssueSpec unorderedFile = some DbIssue.unorderedRecord ∧
    (PhysicalDB.check_db_file
      ⟨unorderedFile, false, DbHeader.fromBytes (unorderedFile.take 15)⟩).2 =
      DbIssue.unorderedRecord :=
  ⟨by decide,
   check_db_file_first_issue
     ⟨unorderedFile, false, DbHeader.fromBytes (unorderedFile.take 15)⟩
     DbIssue.unorderedRecord (by decide)⟩

/-- C6 counterexample: the claim's concrete scenario — appending
`{time_offset: 5, value: 10}` to a freshly created (hence still closed)
store — does not succeed and establishes nothing: `append_record` panics
on the absent handle (`create` leaves the handle closed and the inverted
guard skips the lazy open), so no record becomes readable and no count is
updated. -/
theorem append_to_fresh_store_panics :
    (PhysicalDB.create tsOrigin).append_record ⟨5, 10⟩ = Option.none := rfl

/-- C6 (amended): for every freshly created store *whose handle has been
opened* (as the repository's own test effectively does by calling
`read_header` first) and every record `r`, a successful `append_record r`
makes reading index 0 (the previous record count) return `r`, and makes
the record count 1 both in the in-memory cache and in the on-disk count
field at offset 7. -/
theorem append_then_read_back (origin : Timestamp) (r : RecordInfo)
    (s1 : PhysicalDB) (ho : r.time_offset < 2 ^ 32) (hv : r.value < 2 ^ 8)
    (happ : ((PhysicalDB.create origin).open_db).append_record r = some s1) :
    (s1.read_record 0).2 = Except.ok r ∧
    s1.header.records_number = 1 ∧
    readU64 (s1.file.drop 7) = 1 := by
  have h1 : ((PhysicalDB.create origin).open_db).append_record r =
      some ⟨origin.as_bytes ++ u64le 1 ++ r.as_bytes, true, ⟨origin, 1⟩⟩ := rfl
  rw [h1] at happ
  obtain rfl := (Option.some.inj happ).symm
  refine ⟨?_, rfl, ?_⟩
  · rw [read_record_spec]
    have hr : readableSlot
        (Timestamp.as_bytes origin ++ u64le 1 ++ RecordInfo.as_bytes r) 0 = true := by
      simp [readableSlot, Timestamp.as_bytes, u16le, u64le, RecordInfo.as_bytes, u32le]
    have hslot : slotRecord
        (Timestamp.as_bytes origin ++ u64le 1 ++ RecordInfo.as_bytes r) 0 =
        RecordInfo.fromBytes (RecordInfo.as_bytes r) := by
      simp [slotRecord, Timestamp.as_bytes, u16le, u64le, RecordInfo.as_bytes, u32le]
    dsimp only
    rw [if_pos hr, hslot, record_fromBytes_as_bytes r ho hv]
  · dsimp only
    rw [List.append_assoc, List.drop_left' (by rfl)]
    exact readU64_u64le_append 1 _ (by norm_num)

/-- C6 witness: the amended claim at the repository test's concrete origin
and record; `c6state` is the store after `create`, `open` and the
append. -/
theorem append_then_read_back_witness :
    (c6state.read_record 0).2 = Except.ok ⟨5, 10⟩ ∧
    c6state.header.records_number = 1 ∧
    readU64 (c6state.file.drop 7) = 1 :=
  append_then_read_back tsOrigin ⟨5, 10⟩ c6state (by decide) (by decide) (by decide)

/-- C9: if the cached `records_number` equals the on-disk count field at
offset 7, it still does after any successful store operation: `open`,
`close`, `read_header`, `read_record`, `update_record_number` (which
writes cache+delta and bumps the cache by the same delta),
`append_record`, `check_db_file` and `reorder_record` (the `Option.all`
forms hold vacuously when the operation panics instead of succeeding). -/
theorem record_count_cache_invariant (s : PhysicalDB) (i drn : Nat)
    (r : RecordInfo) (h : countInv s = true) :
    countInv s.open_db = true ∧
    countInv s.close = true ∧
    countInv s.read_header.1 = true ∧
    countInv (s.read_record i).1 = true ∧
    countInv (s.update_record_number drn) = true ∧
    Option.all countInv (s.append_record r) = true ∧
    countInv s.check_db_file.1 = true ∧
    Option.all countInvFst s.reorder_record = true := by
  have hopen : countInv s.open_db = true := (countInv_congr s.open_db s rfl rfl).trans h
  refine ⟨hopen, (countInv_congr s.close s rfl rfl).trans h, ?_, ?_,
    countInv_update s drn h, ?_, ?_, countInv_reorder s h⟩
  · rw [read_header_spec]
    exact hopen
  · rw [read_record_spec]
    exact hopen
  · cases happ : s.append_record r with
    | none => rfl
    | some s1 => exact countInv_append s r s1 h happ
  · rw [check_db_file_fst]
    exact hopen

/-- C9 witness: the invariant preservation at the freshly created store
(whose cache and disk count are both 0), with index 3, delta 2 and the
test record. -/
theorem record_count_cache_invariant_witness :
    countInv (PhysicalDB.create tsOrigin).open_db = true ∧
    countInv (PhysicalDB.create tsOrigin).close = true ∧
    countInv (PhysicalDB.create tsOrigin).read_header.1 = true ∧
    countInv ((PhysicalDB.create tsOrigin).read_record 3).1 = true ∧
    countInv ((PhysicalDB.create tsOrigin).update_record_number 2) = true ∧
    Option.all countInv ((PhysicalDB.create tsOrigin).append_record ⟨5, 10⟩) = true ∧
    countInv (PhysicalDB.create tsOrigin).check_db_file.1 = true ∧
    Option.all countInvFst (PhysicalDB.create tsOrigin).reorder_record = true :=
  record_count_cache_invariant (PhysicalDB.create tsOrigin) 3 2 ⟨5, 10⟩ (by decide)

/-- C7 (amended): for every store with an open handle whose cached record
count matches the on-disk count, whose file holds exactly its
`records_number` records (hence all readable), with real byte values and a
valid origin date, `reorder_record` succeeds; the records then read back
in index order are the sort (non-decreasing in `time_offset`) of the
previously stored records — a permutation of them — and a subsequent
`check_db_file` reports no issue. -/
theorem reorder_records_sorted (s : PhysicalDB)
    (hopen : s.handle = true)
    (hbytes : ∀ b ∈ s.file, b < 256)
    (hlen : s.file.length = 15 + 5 * s.header.records_number)
    (hcount : (DbHeader.fromBytes (s.file.take 15)).records_number =
      s.header.records_number)
    (hvalid : (DbHeader.fromBytes (s.file.take 15)).origin_date.is_valid = true) :
    ∃ s', s.reorder_record = some (s', Except.ok ()) ∧
      readBack s' s.header.records_number =
        (sortRecords (storedRecords s.file s.header.records_number)).map
          Except.ok ∧
      (sortRecords (storedRecords s.file s.header.records_number)).Perm
        (storedRecords s.file s.header.records_number) ∧
      List.Pairwise recordLe
        (sortRecords (storedRecords s.file s.header.records_number)) ∧
      s'.check_db_file.2 = DbIssue.none := by
  have hs : s.open_db = s := open_db_eq_self s hopen
  have hperm : (sortRecords (storedRecords s.file s.header.records_number)).Perm
      (storedRecords s.file s.header.records_number) := sortRecords_perm _
  have hsortedP : List.Pairwise recordLe
      (sortRecords (storedRecords s.file s.header.records_number)) :=
    sortRecords_sorted _
  set n := s.header.records_number with hn
  set stored := storedRecords s.file n with hstored
  set sorted := sortRecords stored with hsortedDef
  have hstored_len : stored.length = n := by
    simp [hstored, storedRecords]
  have hsorted_len : sorted.length = n := by
    rw [hsortedDef, (sortRecords_perm stored).length_eq, hstored_len]
  have hreadable : ∀ j, j < n → readableSlot s.file j = true := by
    intro j hj
    simp only [readableSlot, decide_eq_true_eq]
    omega
  have hloop : PhysicalDB.readLoop s 0 [] n = (s, Except.ok stored) := by
    rw [readLoop_ok s hs n 0 [] (fun j h1 h2 => hreadable j (by omega))]
    rw [hstored, storedRecords, List.range_eq_range']
    simp
  have hD_len : (sorted.flatMap RecordInfo.as_bytes).length = 5 * n := by
    rw [flatMap_as_bytes_length, hsorted_len]
  have hfile' : PhysicalDB.writeAll s.file 15 sorted =
      s.file.take 15 ++ sorted.flatMap RecordInfo.as_bytes := by
    rw [writeAll_spec sorted s.file 15 (by omega)]
    rw [List.drop_eq_nil_of_le (by rw [hsorted_len]; omega)]
    simp
  have hreorder : s.reorder_record =
      some ({ s with
        file := s.file.take 15 ++ sorted.flatMap RecordInfo.as_bytes },
        Except.ok ()) := by
    unfold PhysicalDB.reorder_record
    rw [← hn, hloop]
    dsimp only
    rw [if_pos hopen, ← hfile']
  have hhdr_len : (s.file.take 15).length = 15 := by
    simp [List.length_take]
    omega
  have hlen' : (s.file.take 15 ++ sorted.flatMap RecordInfo.as_bytes).length =
      15 + 5 * n := by
    simp [List.length_append, hhdr_len, hD_len]
  have htake15 : (s.file.take 15 ++ sorted.flatMap RecordInfo.as_bytes).take 15 =
      s.file.take 15 := List.take_left' hhdr_len
  have hbounds : ∀ r ∈ sorted, r.time_offset < 2 ^ 32 ∧ r.value < 2 ^ 8 := by
    intro r hr
    rw [hsortedDef] at hr
    rw [(sortRecords_perm stored).mem_iff] at hr
    rw [hstored, storedRecords, List.mem_map] at hr
    obtain ⟨j, _, rfl⟩ := hr
    exact slotRecord_bounds s.file hbytes j
  have hslot' : ∀ i, i < n →
      slotRecord (s.file.take 15 ++ sorted.flatMap RecordInfo.as_bytes) i =
        sorted.getD i ⟨0, 0⟩ := by
    intro i hi
    rw [slotRecord_append_chunk _ _ hhdr_len i (by omega)]
    have hmem : sorted.getD i ⟨0, 0⟩ ∈ sorted := by
      rw [List.getD_eq_getElem _ _ (by omega)]
      exact List.getElem_mem _
    obtain ⟨hb1, hb2⟩ := hbounds _ hmem
    exact record_fromBytes_as_bytes _ hb1 hb2
  have hreadable' : ∀ j, j < n → readableSlot
      (s.file.take 15 ++ sorted.flatMap RecordInfo.as_bytes) j = true := by
    intro j hj
    simp only [readableSlot, decide_eq_true_eq, hlen']
    omega
  have hreadback : readBack
      ({ s with file := s.file.take 15 ++ sorted.flatMap RecordInfo.as_bytes }) n =
      sorted.map Except.ok := by
    unfold readBack
    apply List.ext_getElem
    · simp [hsorted_len]
    · intro i h1 h2
      have hi : i < n := by simpa using h1
      simp only [List.getElem_map, List.getElem_range]
      rw [read_record_spec]
      dsimp only
      rw [if_pos (hreadable' i hi), hslot' i hi,
        List.getD_eq_getElem _ _ (by omega)]
  have hstep : ∀ m, m + 1 < n →
      (sorted.getD m ⟨0, 0⟩).time_offset ≤
        (sorted.getD (m + 1) ⟨0, 0⟩).time_offset := by
    intro m hm
    have hp := List.pairwise_iff_getElem.mp hsortedP m (m + 1)
      (by omega) (by omega) (by omega)
    rw [List.getD_eq_getElem _ _ (by omega), List.getD_eq_getElem _ _ (by omega)]
    exact hp
  have hbadfalse : ∀ j, j < n →
      badSlot (s.file.take 15 ++ sorted.flatMap RecordInfo.as_bytes) j = false := by
    intro j hj
    cases j with
    | zero =>
      simp [badSlot, hreadable' 0 hj, prevOffset]
    | succ m =>
      simp only [badSlot, hreadable' (m + 1) hj, Bool.not_true, Bool.false_or]
      simp only [prevOffset, decide_eq_false_iff_not]
      rw [hslot' (m + 1) hj, hslot' m (by omega)]
      have := hstep m hj
      omega
  have hcheck : ({ s with
      file := s.file.take 15 ++ sorted.flatMap RecordInfo.as_bytes } :
      PhysicalDB).check_db_file.2 = DbIssue.none := by
    unfold PhysicalDB.check_db_file
    rw [read_header_spec]
    dsimp only
    rw [if_pos (by rw [hlen']; omega)]
    dsimp only
    rw [htake15]
    rw [if_neg (by simp [hvalid])]
    rw [hcount]
    rw [scanRecords_eq _ n 0 0 rfl]
    have hfind : (List.range' 0 n).find? (badSlot
        (({ s with file := s.file.take 15 ++
          sorted.flatMap RecordInfo.as_bytes } : PhysicalDB).open_db.file)) =
        Option.none := by
      apply List.find?_eq_none.mpr
      intro x hx
      rw [List.mem_range'_1] at hx
      show ¬ badSlot (s.file.take 15 ++ sorted.flatMap RecordInfo.as_bytes) x = true
      rw [hbadfalse x (by omega)]
      simp
    rw [hfind]
    dsimp only
    rw [if_neg (by
      show ¬ (s.file.take 15 ++ sorted.flatMap RecordInfo.as_bytes).length >
        120 + 40 * n
      rw [hlen']
      omega)]
  exact ⟨_, hreorder, hreadback, hperm, hsortedP, hcheck⟩

/-- C7 counterexample: the claim, quantified over every store whose
`records_number` records are all readable, promises that `check_db_file`
returns `None` after a successful `reorder_record`.  On this store — one
readable record, open handle, consistent size and count, but an origin
date with month 0 — `reorder_record` succeeds yet the subsequent
`check_db_file` returns `OriginDateInvalid`, not `None`. -/
theorem reorder_then_check_not_none :
    readableSlot invalidOriginDb.file 0 = true ∧
    invalidOriginDb.header.records_number = 1 ∧
    invalidOriginDb.reorder_record = some (invalidOriginDb, Except.ok ()) ∧
    invalidOriginDb.check_db_file.2 = DbIssue.originDateInvalid := by decide

/-- C7 witness: the repository's reorder test scenario — ten records with
strictly decreasing offsets 9 down to 0.  `check_db_file` first reports
`UnorderedRecord`; `reorder_record` succeeds, the read-back records are
the ascending sort of the stored ones (a permutation), and
`check_db_file` then reports `None`. -/
theorem reorder_records_sorted_witness :
    c7db.check_db_file.2 = DbIssue.unorderedRecord ∧
    c7db.reorder_record = some (c7post, Except.ok ()) ∧
    readBack c7post 10 = (sortRecords (storedRecords c7file 10)).map Except.ok ∧
    (sortRecords (storedRecords c7file 10)).Perm (storedRecords c7file 10) ∧
    List.Pairwise recordLe (sortRecords (storedRecords c7file 10)) ∧
    c7post.check_db_file.2 = DbIssue.none := by
  have hre : c7db.reorder_record = some (c7post, Except.ok ()) := by decide
  obtain ⟨s', h1, h2, h3, h4, h5⟩ := reorder_records_sorted c7db rfl (by decide)
    (by decide) (by decide) (by decide)
  rw [hre] at h1
  obtain rfl : s' = c7post := (congrArg Prod.fst (Option.some.inj h1)).symm
  exact ⟨by decide, hre, h2, h3, h4, h5⟩

end Tslite
